import Mathlib

/-!
Verification of the `sstring` crate of liquid-rust: the `SString` type
(crates/sstring/src/string.rs), a UTF-8 encoded immutable string holding its
text either as a heap-owned buffer (`Owned`) or as a reference to permanently
live constant text (`Singleton`).

Rust strings are modelled by the Lean `String` type (valid UTF-8 text).
Byte-wise lexicographic comparison of UTF-8 slices, as used by `str::cmp`,
coincides with code-point-wise lexicographic comparison, which is how we
define `strCmp` below.
-/

/-- The storage of an `SString`: Rust `enum SStringInner`.
`Owned` holds a heap-allocated `String` buffer; `Singleton` holds a
reference to permanently live (`static`) text. -/
inductive SStringInner where
  | Owned : String → SStringInner
  | Singleton : String → SStringInner
  deriving DecidableEq, Repr

/-- Rust `struct SString { inner: SStringInner }`. -/
structure SString where
  inner : SStringInner
  deriving DecidableEq, Repr

namespace SString

/-- Rust `SString::owned` (with `other: impl Into<String>` instantiated at
`String`): wrap an owned buffer. -/
def owned (other : String) : SString := ⟨.Owned other⟩

/-- Rust `SString::singleton`: wrap a reference to permanently live text. -/
def singleton (other : String) : SString := ⟨.Singleton other⟩

/-- Rust `impl From<StdString> for SString`: takes ownership of the buffer,
produces `Owned` mode. -/
def fromString (other : String) : SString := ⟨.Owned other⟩

/-- Rust `impl From<&'static str> for SString`: wraps the reference,
produces `Singleton` mode. -/
def fromStaticStr (other : String) : SString := ⟨.Singleton other⟩

/-- Rust `impl Default for SString`: `"".into()`, which resolves to the
`From<&'static str>` conversion applied to the empty string literal. -/
def default : SString := fromStaticStr ""

/-- Rust `SString::new`: `Default::default()`. -/
def new : SString := default

/-- Rust `SString::as_str`: the full content slice, independent of mode. -/
def as_str : SString → String
  | ⟨.Owned s⟩ => s
  | ⟨.Singleton s⟩ => s

/-- Rust `SString::into_mut`, instrumented with the number of text-buffer
copies performed: the `Owned` arm returns the held buffer itself (no copy),
the `Singleton` arm runs `s.to_owned()` (one copy of the referenced text). -/
def into_mut_with_copies : SString → String × Nat
  | ⟨.Owned s⟩ => (s, 0)
  | ⟨.Singleton s⟩ => (s, 1)

/-- Rust `SString::into_mut`: convert to a mutable `String`, cloning the
data if necessary. -/
def into_mut (v : SString) : String := v.into_mut_with_copies.1

/-- Whether the value is in the `Owned` (heap buffer) storage mode. -/
def isOwned : SString → Bool
  | ⟨.Owned _⟩ => true
  | ⟨.Singleton _⟩ => false

end SString

/-- Code-point-wise lexicographic comparison of character lists. For valid
UTF-8 this coincides with the byte-wise lexicographic order used by Rust
`str::cmp`, because UTF-8 encoding preserves code-point order. -/
def charsCmp : List Char → List Char → Ordering
  | [], [] => .eq
  | [], _ :: _ => .lt
  | _ :: _, [] => .gt
  | a :: as, b :: bs =>
    if a < b then .lt
    else if b < a then .gt
    else charsCmp as bs

/-- Rust `str::cmp` on content: lexicographic comparison of the text. -/
def strCmp (a b : String) : Ordering := charsCmp a.data b.data

namespace SString

/-- Rust `impl PartialEq<SString> for SString`:
`PartialEq::eq(self.as_str(), other.as_str())`. -/
def beq (a b : SString) : Bool := a.as_str == b.as_str

/-- Rust `impl PartialEq<str> for SString`:
`PartialEq::eq(self.as_str(), other)`. -/
def eq_str (v : SString) (other : String) : Bool := v.as_str == other

/-- Rust `impl PartialEq<&'s str> for SString`:
`PartialEq::eq(self.as_str(), *other)`. -/
def eq_ref_str (v : SString) (other : String) : Bool := v.as_str == other

/-- Rust `impl PartialEq<String> for SString`:
`PartialEq::eq(self.as_str(), other.as_str())`. -/
def eq_string (v : SString) (other : String) : Bool := v.as_str == other

/-- Rust `impl Ord for SString`: `self.as_str().cmp(other.as_str())`. -/
def cmp (a b : SString) : Ordering := strCmp a.as_str b.as_str

/-- Rust `impl PartialOrd for SString`:
`self.as_str().partial_cmp(other.as_str())`; for `str` this is
`Some(self.cmp(other))`. -/
def pcmp (a b : SString) : Option Ordering := some (strCmp a.as_str b.as_str)

/-- Rust `impl Borrow<str> for SString`: returns `self.as_str()`. -/
def borrowStr (v : SString) : String := v.as_str

end SString

/-- The byte sequence that hashing a Rust `str` feeds to the hasher:
the UTF-8 bytes of the slice followed by the `0xFF` terminator byte
(`state.write(self.as_bytes()); state.write_u8(0xff)`). -/
def strHashFeed (s : String) : List UInt8 :=
  (s.data.flatMap String.utf8EncodeChar) ++ [(0xff : UInt8)]

/-- Rust `impl Hash for SString`: `self.as_str().hash(state)` — the data fed
to the hasher is exactly the feed of the content slice. -/
def SString.hashFeed (v : SString) : List UInt8 := strHashFeed v.as_str

/-- Rust `serde_string::serialize`: emits exactly one string scalar,
the content slice of the stored value (`serializer.serialize_str(&s)`). -/
def serde_serialize : SStringInner → String
  | .Owned s => s
  | .Singleton s => s

/-- Rust `serde_string::deserialize`: deserializes a plain `String` and
always wraps it in the `Owned` storage mode. -/
def serde_deserialize (s : String) : SStringInner := .Owned s

/-- Modelled from the spec: the Borrowed String View type (`SStringRef`,
defined in crates/sstring/src/ref.rs, which is not among the sources).
Section 4.2: a zero-copy read-only view, either a slice borrowed from some
external owner (`borrow(source_slice)`) or a permanently live reference
(`singleton(permanent_slice)`); the component itself never allocates. -/
inductive SStringRefInner where
  | Borrowed : String → SStringRefInner
  | Singleton : String → SStringRefInner
  deriving DecidableEq, Repr

/-- Modelled from the spec: the Borrowed String View value. -/
structure SStringRef where
  inner : SStringRefInner
  deriving DecidableEq, Repr

/-- Modelled from the spec: `SStringRef::borrow` — view over caller-held
text; O(1), no allocation. -/
def SStringRef.borrow (s : String) : SStringRef := ⟨.Borrowed s⟩

/-- Modelled from the spec: `SStringRef::singleton` — view over permanently
live text; O(1), no allocation. -/
def SStringRef.singleton (s : String) : SStringRef := ⟨.Singleton s⟩

/-- Modelled from the spec: the content slice of a view. -/
def SStringRef.as_str : SStringRef → String
  | ⟨.Borrowed s⟩ => s
  | ⟨.Singleton s⟩ => s

/-- Rust `SString::as_ref`: derive a view — `SStringRef::borrow` over the
buffer in the `Owned` arm, `SStringRef::singleton` over the reference in the
`Singleton` arm. -/
def SString.as_ref : SString → SStringRef
  | ⟨.Owned s⟩ => SStringRef.borrow s
  | ⟨.Singleton s⟩ => SStringRef.singleton s

/-! Helper lemmas on `charsCmp` and `strCmp`. -/

/-- Two strings with the same character data are equal. -/
theorem string_data_inj {a b : String} (h : a.data = b.data) : a = b := by
  cases a; cases b; exact congrArg String.mk h

/-- `charsCmp` returns `eq` exactly on equal lists. -/
theorem charsCmp_eq_iff (l m : List Char) : charsCmp l m = .eq ↔ l = m := by
  induction l generalizing m with
  | nil => cases m <;> simp [charsCmp]
  | cons a as ih =>
    cases m with
    | nil => simp [charsCmp]
    | cons b bs =>
      by_cases hab : a < b
      · simp [charsCmp, hab]
        intro h
        exact absurd h (ne_of_lt hab)
      · by_cases hba : b < a
        · simp [charsCmp, hab, hba]
          intro h
          exact absurd h.symm (ne_of_lt hba)
        · have hEq : a = b := le_antisymm (not_lt.mp hba) (not_lt.mp hab)
          simp [charsCmp, hab, hba, hEq, ih]

/-- Comparing in the opposite direction swaps the verdict. -/
theorem charsCmp_swap (l m : List Char) : charsCmp m l = (charsCmp l m).swap := by
  induction l generalizing m with
  | nil => cases m <;> simp [charsCmp, Ordering.swap]
  | cons a as ih =>
    cases m with
    | nil => simp [charsCmp, Ordering.swap]
    | cons b bs =>
      by_cases hab : a < b
      · simp [charsCmp, hab, asymm hab, Ordering.swap]
      · by_cases hba : b < a
        · simp [charsCmp, hab, hba, Ordering.swap]
        · simp [charsCmp, hab, hba, ih]

/-- Strict comparison of character lists is transitive. -/
theorem charsCmp_lt_trans {l m n : List Char} (h1 : charsCmp l m = .lt)
    (h2 : charsCmp m n = .lt) : charsCmp l n = .lt := by
  induction l generalizing m n with
  | nil =>
    cases m with
    | nil => simp [charsCmp] at h1
    | cons b bs =>
      cases n with
      | nil => simp [charsCmp] at h2
      | cons c cs => simp [charsCmp]
  | cons a as ih =>
    cases m with
    | nil => simp [charsCmp] at h1
    | cons b bs =>
      cases n with
      | nil => simp [charsCmp] at h2
      | cons c cs =>
        by_cases hab : a < b
        · by_cases hbc : b < c
          · simp [charsCmp, lt_trans hab hbc]
          · by_cases hcb : c < b
            · simp [charsCmp, hbc, hcb] at h2
            · have hbc' : b = c := le_antisymm (not_lt.mp hcb) (not_lt.mp hbc)
              simp [charsCmp, hbc' ▸ hab]
        · by_cases hba : b < a
          · simp [charsCmp, hab, hba] at h1
          · have hab' : a = b := le_antisymm (not_lt.mp hba) (not_lt.mp hab)
            simp [charsCmp, hab, hba] at h1
            by_cases hbc : b < c
            · simp [charsCmp, hab' ▸ hbc]
            · by_cases hcb : c < b
              · simp [charsCmp, hbc, hcb] at h2
              · simp [charsCmp, hbc, hcb] at h2
                subst hab'
                simp [charsCmp, hbc, hcb, ih h1 h2]

/-- `strCmp` returns `eq` exactly on equal strings. -/
theorem strCmp_eq_iff (a b : String) : strCmp a b = .eq ↔ a = b := by
  unfold strCmp
  rw [charsCmp_eq_iff]
  exact ⟨string_data_inj, fun h => h ▸ rfl⟩


/-! The claim theorems. -/

/-- C1: content equivalence — for any two `SString` values in any combination
of storage modes, equality holds iff their `as_str` contents are equal, `cmp`
equals the lexicographic ordering of the content slices, and equal values
feed identical data to the hasher; the storage mode is not observable through
equality, ordering, or hashing. -/
theorem c1_content_equivalence (a b : SString) :
    (SString.beq a b = true ↔ a.as_str = b.as_str)
    ∧ SString.cmp a b = strCmp a.as_str b.as_str
    ∧ (SString.beq a b = true → SString.hashFeed a = SString.hashFeed b) := by
  have hiff : SString.beq a b = true ↔ a.as_str = b.as_str := by
    unfold SString.beq
    exact beq_iff_eq
  refine ⟨hiff, rfl, fun h => ?_⟩
  unfold SString.hashFeed
  rw [hiff.mp h]

/-- C1 witness: two values of different storage modes but identical content
feed identical data to the hasher. -/
theorem c1_content_equivalence_witness :
    SString.hashFeed (SString.owned "ab") = SString.hashFeed (SString.singleton "ab") :=
  (c1_content_equivalence (SString.owned "ab") (SString.singleton "ab")).2.2 (by decide)

/-- C2: round-trip through the persisted form — deserializing the
serialization of any `SString` yields a value with the same content slice,
and the result is always in the `Owned` storage mode, even when the input
was in `Singleton` mode. -/
theorem c2_roundtrip (v : SString) :
    (SString.mk (serde_deserialize (serde_serialize v.inner))).as_str = v.as_str
    ∧ (SString.mk (serde_deserialize (serde_serialize v.inner))).isOwned = true := by
  obtain ⟨inner⟩ := v
  cases inner <;>
    simp [serde_serialize, serde_deserialize, SString.as_str, SString.isOwned]

/-- C3: serialization is mode-agnostic — every `SString` serializes as
exactly one plain string scalar equal to its content slice, so any two
values with equal content serialize identically regardless of mode. -/
theorem c3_serialize_mode_agnostic (v a b : SString) :
    serde_serialize v.inner = v.as_str
    ∧ (a.as_str = b.as_str → serde_serialize a.inner = serde_serialize b.inner) := by
  have hser : ∀ w : SString, serde_serialize w.inner = w.as_str := by
    intro w
    obtain ⟨inner⟩ := w
    cases inner <;> rfl
  refine ⟨hser v, fun h => ?_⟩
  rw [hser a, hser b, h]

/-- C3 witness: an owned and a singleton value with the same content have
identical serialized forms. -/
theorem c3_serialize_mode_agnostic_witness :
    serde_serialize (SString.owned "x").inner = serde_serialize (SString.singleton "x").inner :=
  (c3_serialize_mode_agnostic (SString.owned "x") (SString.owned "x")
    (SString.singleton "x")).2 (by decide)

/-- C4: `SString::new()` returns the empty string in `Singleton` mode (an
empty static reference, no heap allocation), and this value equals
`SString::owned("")` under content equality. -/
theorem c4_new_empty :
    SString.new = ⟨.Singleton ""⟩
    ∧ SString.new.as_str = ""
    ∧ SString.new.as_str.length = 0
    ∧ SString.beq SString.new (SString.owned "") = true := by
  refine ⟨rfl, rfl, rfl, ?_⟩
  decide

/-- C5: `into_mut` returns a buffer whose content equals the consumed
value content slice; in `Owned` mode it returns the very buffer it held with
zero copies, and in `Singleton` mode it performs exactly one copy of the
referenced text. -/
theorem c5_into_mut (v : SString) (s : String) :
    v.into_mut = v.as_str
    ∧ (SString.owned s).into_mut_with_copies = (s, 0)
    ∧ (SString.singleton s).into_mut_with_copies = (s, 1) := by
  refine ⟨?_, rfl, rfl⟩
  obtain ⟨inner⟩ := v
  cases inner <;> rfl

/-- C6: mode-typed conversions — `From<String>` yields `Owned` mode holding
exactly the given buffer with its content unchanged, and
`From<&'static str>` yields `Singleton` mode referencing exactly the given
text. -/
theorem c6_from_conversions (s r : String) :
    SString.fromString s = ⟨.Owned s⟩
    ∧ (SString.fromString s).as_str = s
    ∧ SString.fromStaticStr r = ⟨.Singleton r⟩
    ∧ (SString.fromStaticStr r).as_str = r :=
  ⟨rfl, rfl, rfl, rfl⟩

/-- C7: mixed-type comparison — comparing an `SString` with a plain string
slice or buffer on the right holds iff the content slice equals it; the
`str`, `&str` and `String` right-hand operand comparisons coincide, and they
agree with same-type comparison on values of equal content. -/
theorem c7_mixed_comparison (v w : SString) (s : String) :
    (SString.eq_str v s = true ↔ v.as_str = s)
    ∧ SString.eq_ref_str v s = SString.eq_str v s
    ∧ SString.eq_string v s = SString.eq_str v s
    ∧ SString.eq_str v w.as_str = SString.beq v w := by
  refine ⟨?_, rfl, rfl, rfl⟩
  unfold SString.eq_str
  exact beq_iff_eq

/-- C8: view derivation preserves mode and content — `as_ref` produces a
borrowed-mode view over the buffer in `Owned` mode and a singleton-mode view
over the same reference in `Singleton` mode, and in both cases the view
content equals `as_str`. -/
theorem c8_as_ref (v : SString) (s : String) :
    (SString.owned s).as_ref = SStringRef.borrow s
    ∧ (SString.singleton s).as_ref = SStringRef.singleton s
    ∧ v.as_ref.as_str = v.as_str := by
  refine ⟨rfl, rfl, ?_⟩
  obtain ⟨inner⟩ := v
  cases inner <;> rfl

/-- C9: ordering coherence — `partial_cmp` always returns `some (cmp a b)`,
`cmp` is the total order inherited from the content slices (equality exactly
on equal content, antisymmetric under swapping, transitive), and `a == b`
holds exactly when `cmp a b` is `eq`, across all storage modes. -/
theorem c9_ordering_coherence (a b c : SString) :
    SString.pcmp a b = some (SString.cmp a b)
    ∧ (SString.cmp a b = .eq ↔ a.as_str = b.as_str)
    ∧ (SString.beq a b = true ↔ SString.cmp a b = .eq)
    ∧ SString.cmp b a = (SString.cmp a b).swap
    ∧ (SString.cmp a b = .lt → SString.cmp b c = .lt → SString.cmp a c = .lt) := by
  have hEq : SString.cmp a b = .eq ↔ a.as_str = b.as_str := strCmp_eq_iff _ _
  refine ⟨rfl, hEq, ?_, charsCmp_swap _ _, fun h1 h2 => charsCmp_lt_trans h1 h2⟩
  unfold SString.beq
  rw [hEq]
  exact beq_iff_eq

/-- C9 witness: transitivity of the order at concrete values of mixed
storage modes. -/
theorem c9_ordering_coherence_witness :
    SString.cmp (SString.owned "a") (SString.owned "c") = .lt :=
  (c9_ordering_coherence (SString.owned "a") (SString.singleton "b")
    (SString.owned "c")).2.2.2.2 (by decide) (by decide)

/-- C10: borrow/hash coherence — `Borrow::<str>::borrow` returns exactly
`as_str`, hashing the value feeds exactly the data of hashing the borrowed
slice, and for any plain string equal to the content, hash feed and equality
outcomes match those of the value, in both storage modes. -/
theorem c10_borrow_hash (v : SString) (s : String) :
    SString.borrowStr v = v.as_str
    ∧ SString.hashFeed v = strHashFeed (SString.borrowStr v)
    ∧ (v.as_str = s → SString.hashFeed v = strHashFeed s ∧ SString.eq_str v s = true) := by
  refine ⟨rfl, rfl, fun h => ⟨?_, ?_⟩⟩
  · unfold SString.hashFeed
    rw [h]
  · unfold SString.eq_str
    exact beq_iff_eq.mpr h

/-- C10 witness: a singleton value can be looked up by the equal plain
string with an identical hash feed. -/
theorem c10_borrow_hash_witness :
    SString.hashFeed (SString.singleton "k") = strHashFeed "k"
    ∧ SString.eq_str (SString.singleton "k") "k" = true :=
  (c10_borrow_hash (SString.singleton "k") "k").2.2 (by decide)
